import Mathlib

/-!
Verification of the chat composer (`MessageBox.tsx`) and its snippet
segmentation parser (`UserContentBlock.tsx`).

Text is embedded as `List Char` (JS strings).  The configuration constants
(`SNIPPET_MARKERS`, `MAX_ROWS`, `MAX_IMAGE_ATTACHMENTS_PER_MESSAGE` from
`appConstants`) are not part of the sources at hand, so they appear as
parameters of the embedded operations.
-/

namespace GotChat

/-- JS strings are modelled as lists of characters. -/
abbrev Str := List Char

/-- Coerce a Lean string literal into the `List Char` model. -/
def str (s : String) : Str := s.data

/-- Modelled from the spec: the configurable pair of snippet sentinel strings
(`SNIPPET_MARKERS.begin` / `SNIPPET_MARKERS.end` in `appConstants`, a file that
is not among the sources); the spec only fixes that they are two marker
strings, so they are carried as parameters. -/
structure SnippetMarkers where
  beginMarker : Str
  endMarker : Str
deriving DecidableEq

/-- JS `String.prototype.split` for a non-empty separator (leftmost,
non-overlapping occurrences); `jsSplit` below adds the empty-separator case. -/
def jsSplitNe (sep : Str) : Str → List Str
  | [] => [[]]
  | c :: rest =>
    if sep ≠ [] ∧ sep <+: (c :: rest) then
      [] :: jsSplitNe sep (rest.drop (sep.length - 1))
    else
      match jsSplitNe sep rest with
      | [] => [[c]]
      | q :: qs => (c :: q) :: qs
termination_by l => l.length
decreasing_by
  · simp only [List.length_drop, List.length_cons]
    omega
  · simp

/-- JS `String.prototype.split`. -/
def jsSplit (sep l : Str) : List Str :=
  if sep = [] then l.map (fun c => [c]) else jsSplitNe sep l

/-- JS `String.prototype.indexOf`, with `none` standing for `-1`. -/
def jsIndexOf (sep : Str) : Str → Option Nat
  | [] => if sep = [] then some 0 else none
  | c :: rest =>
    if sep <+: (c :: rest) then some 0
    else (jsIndexOf sep rest).map (· + 1)

/-- The elements `processText` pushes onto `sections`: the empty
`React.Fragment` (for empty content), a markdown block, or a
`FoldableTextSection`. -/
inductive RenderedSection where
  | emptyFragment : RenderedSection
  | markdownSection : Str → RenderedSection
  | foldableSection : Str → RenderedSection
deriving DecidableEq

/-- `renderMarkdownSection` in `UserContentBlock.tsx`: empty content renders
as an empty fragment, anything else as a markdown block. -/
def renderMarkdownSection (content : Str) : RenderedSection :=
  if content = [] then .emptyFragment else .markdownSection content

/-- The body of the `forEach` in `processText` for one piece of the split
(`section` with its index): the first piece without an end marker is prose;
otherwise everything before the first end marker is a foldable snippet and a
non-empty remainder is prose; with no end marker the piece is prose. -/
def processSection (endMarker : Str) (index : Nat) (piece : Str) : List RenderedSection :=
  if index = 0 ∧ ¬ (endMarker <:+: piece) then
    [renderMarkdownSection piece]
  else
    match jsIndexOf endMarker piece with
    | some endSnippetIndex =>
      .foldableSection (piece.take endSnippetIndex) ::
        (let remainingText := piece.drop (endSnippetIndex + endMarker.length)
         if remainingText = [] then [] else [renderMarkdownSection remainingText])
    | none => [renderMarkdownSection piece]

/-- The `forEach` loop of `processText`, threading the piece index. -/
def processTextGo (endMarker : Str) (index : Nat) : List Str → List RenderedSection
  | [] => []
  | piece :: pieces =>
      processSection endMarker index piece ++ processTextGo endMarker (index + 1) pieces

/-- `processText` in `UserContentBlock.tsx`: split the input on the begin
marker and process each piece in order. -/
def processText (marks : SnippetMarkers) (inputText : Str) : List RenderedSection :=
  processTextGo marks.endMarker 0 (jsSplit marks.beginMarker inputText)

/-! ### The composer (`MessageBox.tsx`) -/

/-- `FileData` from `models/FileData`, as populated by `MessageBox.tsx`. -/
structure FileData where
  data : Str
  type : Str
  source : Str
  filename : Str
deriving DecidableEq

/-- `FileDataRef`: the entries of the `fileDataRef` state (the Attachment
Store); `MessageBox.tsx` always creates them with `id: 0`. -/
structure FileDataRef where
  id : Nat
  fileData : FileData
deriving DecidableEq

/-- The composer state of `MessageBox`.  `draftText` collapses the three
always-synchronised copies of the buffer (`textValue` ref, `draftText` state
and the textarea's `value`); `selectionStart`/`selectionEnd` are
`selectionRef.current`; `fileDataRef` is the attachment store; `isExpanded`
is the CompositionMode flag; `loading` is the outstanding-send flag owned by
the parent and toggled through `setLoading`. -/
structure ComposerState where
  draftText : Str
  selectionStart : Nat
  selectionEnd : Nat
  fileDataRef : List FileDataRef
  isExpanded : Bool
  loading : Bool
deriving DecidableEq

/-- `insertTextAtCursorPosition`: splice `textToInsert` over the current
selection range (`text.substring(0, startPos) + textToInsert +
text.substring(endPos)`) and collapse the selection to the point right after
the inserted text. -/
def insertTextAtCursorPosition (s : ComposerState) (textToInsert : Str) : ComposerState :=
  let startPos := s.selectionStart
  let endPos := s.selectionEnd
  let text := s.draftText
  let newTextValue := text.take startPos ++ textToInsert ++ text.drop endPos
  { s with
    draftText := newTextValue
    selectionStart := startPos + textToInsert.length
    selectionEnd := startPos + textToInsert.length }

/-- The oversized-paste wrapping of `handlePaste`:
`` `${SNIPPET_MARKERS.begin}\n${pastedText}\n${SNIPPET_MARKERS.end}\n` ``. -/
def wrapSnippet (marks : SnippetMarkers) (pastedText : Str) : Str :=
  marks.beginMarker ++ '\n' :: pastedText ++ '\n' :: marks.endMarker ++ ['\n']

/-- Outcome of the plain-text branch of `handlePaste`: either the native
paste is left alone, or it is suppressed (`preventDefault`) and the wrapped
payload is inserted at the cursor via `insertTextAtCursorPosition`. -/
inductive PasteTextAction where
  | nativePaste : PasteTextAction
  | insertWrapped : Str → PasteTextAction
deriving DecidableEq

/-- The plain-text classification of `handlePaste` (`MessageBox.tsx`
lines 253-278): marker-containing pastes are passed through; otherwise a
paste with `MAX_ROWS` or more newlines, or longer than `80 * MAX_ROWS`,
is wrapped in snippet markers. -/
def handlePasteText (marks : SnippetMarkers) (maxRows : Nat) (pastedText : Str) :
    PasteTextAction :=
  if (marks.beginMarker <:+: pastedText) ∨ (marks.endMarker <:+: pastedText) then
    .nativePaste
  else
    let newlineCount := pastedText.count '\n'
    if maxRows ≤ newlineCount ∨ 80 * maxRows < pastedText.length then
      .insertWrapped (wrapSnippet marks pastedText)
    else
      .nativePaste

/-- The effect of the plain-text branch of `handlePaste` on the composer
state, with the `Bool` recording whether `preventDefault` suppressed the
native paste. -/
def handlePasteTextEffect (marks : SnippetMarkers) (maxRows : Nat) (s : ComposerState)
    (pastedText : Str) : ComposerState × Bool :=
  match handlePasteText marks maxRows pastedText with
  | .insertWrapped modifiedText => (insertTextAtCursorPosition s modifiedText, true)
  | .nativePaste => (s, false)

/-- One invocation of the external send callback: `callApp(messageText,
attachments)`. -/
abbrev SendCall := Str × List FileDataRef

/-- `handleSubmit` (`MessageBox.tsx` lines 316-326): call `callApp` with the
draft and (when image attachments are allowed) the attachment store, then
empty the buffer, reset the selection, and collapse the expanded editor.
Note it never touches `fileDataRef`. -/
def handleSubmit (allowImageAttachment : Str) (s : ComposerState) :
    ComposerState × SendCall :=
  let messageText := s.draftText
  let sent : SendCall :=
    (messageText, if allowImageAttachment = str "yes" then s.fileDataRef else [])
  ({ s with
      draftText := []
      selectionStart := 0
      selectionEnd := 0
      isExpanded := false },
   sent)

/-- `handleCancel` (`MessageBox.tsx` lines 327-333): invoke
`ChatService.cancelStream()` (the returned `Bool`) and `setLoading(false)`;
nothing else changes. -/
def handleCancel (s : ComposerState) : ComposerState × Bool :=
  ({ s with loading := false }, true)

/-- The fields of the keyboard event `checkForSpecialKey` reads. -/
structure KeyboardEventModel where
  key : Str
  shiftKey : Bool
  selectionStart : Nat
  selectionEnd : Nat

/-- Result of a keydown dispatch: the next composer state, the list of
`callApp` invocations it performed, and whether `preventDefault` was
called (when it was not, the textarea's native handling — e.g. inserting a
newline for Enter — proceeds). -/
structure KeyOutcome where
  state : ComposerState
  callAppCalls : List SendCall
  defaultPrevented : Bool
deriving DecidableEq

/-- `checkForSpecialKey` (`MessageBox.tsx` lines 280-305): plain Enter while
not loading submits (capturing the selection, calling `callApp`, clearing
the buffer, collapsing); Shift+Enter and Enter-while-loading do nothing and
leave the default behaviour in place. -/
def checkForSpecialKey (allowImageAttachment : Str) (s : ComposerState)
    (e : KeyboardEventModel) : KeyOutcome :=
  let isEnter := e.key = str "Enter"
  if isEnter then
    if e.shiftKey then
      ⟨s, [], false⟩
    else if s.loading = false then
      let s1 := { s with selectionStart := e.selectionStart, selectionEnd := e.selectionEnd }
      let messageText := s1.draftText
      let sent : SendCall :=
        (messageText, if allowImageAttachment = str "yes" then s1.fileDataRef else [])
      ⟨{ s1 with
          draftText := []
          selectionStart := 0
          selectionEnd := 0
          isExpanded := false },
       [sent], true⟩
    else
      ⟨s, [], false⟩
  else
    ⟨s, [], false⟩

/-- Modelled from the spec: the host text-input primitive's native handling
of an unprevented Enter keystroke — "Shift+Enter inserts a literal newline
instead"; the newline replaces the current selection and the caret lands
after it.  (The browser performing this default is not part of the
repository's sources.) -/
def nativeEnterDefault (s : ComposerState) : ComposerState :=
  { s with
    draftText := s.draftText.take s.selectionStart ++ '\n' :: s.draftText.drop s.selectionEnd
    selectionStart := s.selectionStart + 1
    selectionEnd := s.selectionStart + 1 }

/-! ### Attachment ingestion -/

/-- The result of the opaque `preprocessImage` collaborator for one image:
the normalised base64 payload and the processed file's MIME type. -/
structure PreprocessedImage where
  base64Data : Str
  processedType : Str
deriving DecidableEq

/-- A clipboard item of `handlePaste`'s image loop: its MIME `type` and the
outcome of `getAsFile()` (`none` models a `null` file), carrying the
`preprocessImage` result for it. -/
structure ClipboardItemModel where
  type : Str
  asFile : Option PreprocessedImage
deriving DecidableEq

/-- One iteration of the clipboard-item loop in `handlePaste`
(`MessageBox.tsx` lines 217-246): an item whose type starts with `"image"`
is appended to the store (with `source: 'pasted'`, `filename:
'pasted-image'`, `id: 0`) whenever image attachments are not disallowed and
`getAsFile()` yields a file.  There is no cap check on this path. -/
def pasteImageStep (allowImageAttachment : Str) (acc : List FileDataRef)
    (item : ClipboardItemModel) : List FileDataRef :=
  if (str "image") <+: item.type ∧ allowImageAttachment ≠ str "no" then
    match item.asFile with
    | some f =>
        acc ++ [⟨0, ⟨f.base64Data, f.processedType, str "pasted", str "pasted-image"⟩⟩]
    | none => acc
  else acc

/-- The clipboard-item loop of `handlePaste` over all items. -/
def handlePasteImageItems (allowImageAttachment : Str) (fileDataRef : List FileDataRef)
    (items : List ClipboardItemModel) : List FileDataRef :=
  items.foldl (pasteImageStep allowImageAttachment) fileDataRef

/-- Whether a clipboard item gets appended by the paste loop (given image
attachments are not disallowed). -/
def pastedImageCounted (item : ClipboardItemModel) : Bool :=
  decide ((str "image") <+: item.type) && item.asFile.isSome

/-- A file selected through the picker of `handleAttachment`: its `name` and
MIME `type`, the `preprocessImage` result (used when it is an image), and
the decoded text content (used when it is a text file). -/
structure PickedFileModel where
  name : Str
  type : Str
  preprocessed : PreprocessedImage
  textContent : Str
deriving DecidableEq

/-- One iteration of the `forEach` inside `fileInput.onchange` of
`handleAttachment` (`MessageBox.tsx` lines 349-411).  The cap check reads
`fileDataRef.length` from the render closure captured when the dialog was
opened — the `fileDataRef` parameter — not the accumulator, so every file of
one batch sees the same length.  Image files passing the check are appended
(`source: 'filename'`); text files contribute a
`File: <name>:\nBEGIN\n<text>\nEND\n` insertion into the buffer, collected
in the second component. -/
def attachmentOnChangeStep (maxImages : Nat) (marks : SnippetMarkers)
    (fileDataRef : List FileDataRef) (acc : List FileDataRef × List Str)
    (file : PickedFileModel) : List FileDataRef × List Str :=
  if (str "image/") <+: file.type then
    if maxImages ≤ fileDataRef.length then acc
    else
      (acc.1 ++ [⟨0, ⟨file.preprocessed.base64Data, file.preprocessed.processedType,
                      str "filename", file.name⟩⟩],
       acc.2)
  else if (str "text/") <+: file.type then
    (acc.1,
     acc.2 ++ [str "File: " ++ file.name ++ str ":" ++ '\n' ::
               marks.beginMarker ++ '\n' :: file.textContent ++ '\n' ::
               marks.endMarker ++ ['\n']])
  else acc

/-- The `fileInput.onchange` handler of `handleAttachment` over the selected
files.  (`allowImageAttachment` only shapes the dialog's `accept` attribute;
the handler itself never consults it.) -/
def handleAttachmentOnChange (maxImages : Nat) (marks : SnippetMarkers)
    (fileDataRef : List FileDataRef) (files : List PickedFileModel) :
    List FileDataRef × List Str :=
  files.foldl (attachmentOnChangeStep maxImages marks fileDataRef) (fileDataRef, [])

/-- Whether a picked file is an image in the sense of `handleAttachment`. -/
def pickedImageCounted (file : PickedFileModel) : Bool :=
  decide ((str "image/") <+: file.type)

/-! ### Concrete sample values used by witnesses and counterexamples -/

/-- A concrete marker configuration for concrete evaluations. -/
def marksBE : SnippetMarkers := ⟨str "B", str "E"⟩

/-- A concrete `preprocessImage` result. -/
def sampleImage : PreprocessedImage := ⟨str "data0", str "image/png"⟩

/-- A concrete pasted clipboard image item. -/
def sampleImageItem : ClipboardItemModel := ⟨str "image/png", some sampleImage⟩

/-- A concrete image file chosen through the picker. -/
def samplePickedImage : PickedFileModel := ⟨str "a.png", str "image/png", sampleImage, str ""⟩

/-- A concrete stored attachment. -/
def sampleAttachment : FileDataRef :=
  ⟨0, ⟨str "d", str "image/png", str "pasted", str "pasted-image"⟩⟩

/-- A composer state holding one attachment, not loading, collapsed. -/
def sampleWithAttachment : ComposerState := ⟨str "hello", 0, 0, [sampleAttachment], false, false⟩

/-- A composer state with a send outstanding while the editor is expanded. -/
def sampleLoadedExpanded : ComposerState := ⟨str "hi", 0, 0, [], true, true⟩

/-- A composer state with a draft and a mid-text selection, idle. -/
def sampleIdle : ComposerState := ⟨str "abcd", 1, 3, [], false, false⟩

/-- An empty composer state. -/
def sampleEmpty : ComposerState := ⟨[], 0, 0, [], false, false⟩

/-- A plain Enter keydown event. -/
def samplePlainEnter : KeyboardEventModel := ⟨str "Enter", false, 2, 2⟩

/-- A Shift+Enter keydown event. -/
def sampleShiftEnter : KeyboardEventModel := ⟨str "Enter", true, 2, 2⟩

/-! ### Generic facts about substring occurrence -/

theorem contains_nil_iff (sep : Str) : sep <:+: ([] : Str) ↔ sep = [] := by
  constructor
  · rintro ⟨s, t, hst⟩
    have h1 := List.append_eq_nil.mp hst
    exact (List.append_eq_nil.mp h1.1).2
  · rintro rfl
    exact ⟨[], [], rfl⟩

theorem starts_contains {sep l : Str} (h : sep <+: l) : sep <:+: l := by
  obtain ⟨t, ht⟩ := h
  exact ⟨[], t, by simpa using ht⟩

theorem contains_cons_of {sep rest : Str} {c : Char} (h : sep <:+: rest) :
    sep <:+: (c :: rest) := by
  obtain ⟨s, t, hst⟩ := h
  exact ⟨c :: s, t, by simp [hst]⟩

theorem contains_cons_elim {sep xs : Str} {b : Char} (h : sep <:+: (b :: xs)) :
    sep <+: (b :: xs) ∨ sep <:+: xs := by
  obtain ⟨s, t, hst⟩ := h
  cases s with
  | nil => exact Or.inl ⟨t, by simpa using hst⟩
  | cons x s' =>
    right
    have hx : x = b ∧ s' ++ sep ++ t = xs := by
      simpa using hst
    exact ⟨s', t, hx.2⟩

theorem not_starts_cons {sep l : Str} {a : Char} (hne : sep ≠ []) (ha : a ∉ sep) :
    ¬ sep <+: (a :: l) := by
  intro h
  obtain ⟨t, ht⟩ := h
  cases sep with
  | nil => exact hne rfl
  | cons b s' =>
    have hb : b = a := by simpa using congrArg (·.head?) ht
    exact ha (hb ▸ List.mem_cons_self b s')

theorem starts_append_mid {sep l r : Str} {a : Char} (ha : a ∉ sep)
    (h : sep <+: (l ++ a :: r)) : sep <+: l := by
  induction l generalizing sep with
  | nil =>
    cases sep with
    | nil => exact ⟨[], rfl⟩
    | cons b s' =>
      obtain ⟨t, ht⟩ := h
      have hb : b = a := by simpa using congrArg (·.head?) ht
      exact absurd (hb ▸ List.mem_cons_self b s') ha
  | cons b l' ih =>
    cases sep with
    | nil => exact ⟨b :: l', rfl⟩
    | cons c s' =>
      obtain ⟨t, ht⟩ := h
      have hcb : c = b ∧ s' ++ t = l' ++ a :: r := by simpa using ht
      have hs' : s' <+: l' := by
        refine ih (fun hm => ha (List.mem_cons_of_mem c hm)) ⟨t, hcb.2⟩
      obtain ⟨u, hu⟩ := hs'
      exact ⟨u, by simp [hcb.1, hu]⟩

theorem contains_append_split {sep l r : Str} {a : Char} (ha : a ∉ sep) :
    sep <:+: (l ++ a :: r) ↔ sep <:+: l ∨ sep <:+: r := by
  constructor
  · intro h
    induction l with
    | nil =>
      rcases contains_cons_elim (by simpa using h) with hp | hi
      · by_cases hsep : sep = []
        · exact Or.inl ((contains_nil_iff sep).mpr hsep)
        · exact absurd hp (not_starts_cons hsep ha)
      · exact Or.inr hi
    | cons b l' ih =>
      rcases contains_cons_elim (by simpa using h) with hp | hi
      · have : sep <+: (b :: l') := starts_append_mid ha (by simpa using hp)
        exact Or.inl (starts_contains this)
      · rcases ih hi with h1 | h2
        · exact Or.inl (contains_cons_of h1)
        · exact Or.inr h2
  · rintro (⟨s, t, hst⟩ | ⟨s, t, hst⟩)
    · exact ⟨s, t ++ a :: r, by simp [← hst]⟩
    · exact ⟨l ++ a :: s, t, by simp [← hst]⟩

theorem contains_cons_split {sep r : Str} {a : Char} (ha : a ∉ sep) :
    sep <:+: (a :: r) ↔ sep = [] ∨ sep <:+: r := by
  have h := contains_append_split (l := []) (r := r) ha
  simpa [contains_nil_iff] using h

/-! ### Take/drop across appends -/

theorem take_append_plus (l₁ l₂ : Str) (n : Nat) :
    (l₁ ++ l₂).take (l₁.length + n) = l₁ ++ l₂.take n := by
  induction l₁ with
  | nil => simp
  | cons c l ih => simp [List.take_succ_cons, Nat.succ_add, ih]

theorem drop_append_plus (l₁ l₂ : Str) (n : Nat) :
    (l₁ ++ l₂).drop (l₁.length + n) = l₂.drop n := by
  induction l₁ with
  | nil => simp
  | cons c l ih => simp [List.drop_succ_cons, Nat.succ_add, ih]

theorem drop_append_self (l₁ l₂ : Str) : (l₁ ++ l₂).drop l₁.length = l₂ := by
  induction l₁ with
  | nil => simp
  | cons c l ih => simp [ih]

theorem take_append_self (l₁ l₂ : Str) : (l₁ ++ l₂).take l₁.length = l₁ := by
  induction l₁ with
  | nil => simp
  | cons c l ih => simp [ih]

/-! ### Behaviour of `jsIndexOf` -/

theorem jsIndexOf_starts {sep l : Str} (h : sep <+: l) : jsIndexOf sep l = some 0 := by
  cases l with
  | nil =>
    have : sep = [] := by simpa using h
    simp [jsIndexOf, this]
  | cons c rest => simp [jsIndexOf, h]

theorem jsIndexOf_eq_none_of_not_contains {sep l : Str} (h : ¬ sep <:+: l) :
    jsIndexOf sep l = none := by
  induction l with
  | nil =>
    have : sep ≠ [] := fun hs => h ((contains_nil_iff sep).mpr hs)
    simp [jsIndexOf, this]
  | cons c rest ih =>
    have h1 : ¬ sep <+: (c :: rest) := fun hp => h (starts_contains hp)
    have h2 : ¬ sep <:+: rest := fun hi => h (contains_cons_of hi)
    simp [jsIndexOf, h1, ih h2]

theorem jsIndexOf_some_contains {sep l : Str} {i : Nat}
    (h : jsIndexOf sep l = some i) : sep <:+: l := by
  induction l generalizing i with
  | nil =>
    by_cases hs : sep = []
    · exact (contains_nil_iff sep).mpr hs
    · simp [jsIndexOf, hs] at h
  | cons c rest ih =>
    by_cases hp : sep <+: (c :: rest)
    · exact starts_contains hp
    · simp only [jsIndexOf, if_neg hp, Option.map_eq_some'] at h
      obtain ⟨j, hj, -⟩ := h
      exact contains_cons_of (ih hj)

theorem jsIndexOf_cons_not_mem {sep l : Str} {a : Char} (hne : sep ≠ []) (ha : a ∉ sep) :
    jsIndexOf sep (a :: l) = (jsIndexOf sep l).map (· + 1) := by
  simp [jsIndexOf, not_starts_cons hne ha]

theorem jsIndexOf_append_shift {sep l r : Str} {a : Char} (hne : sep ≠ []) (ha : a ∉ sep)
    (hl : ¬ sep <:+: l) :
    jsIndexOf sep (l ++ a :: r) = (jsIndexOf sep r).map (· + (l.length + 1)) := by
  induction l with
  | nil =>
    rw [List.nil_append, jsIndexOf_cons_not_mem hne ha]
    cases jsIndexOf sep r <;> simp
  | cons c l' ih =>
    have hp : ¬ sep <+: (c :: (l' ++ a :: r)) := by
      intro hp
      exact hl (starts_contains (starts_append_mid (l := c :: l') ha (by simpa using hp)))
    have hl' : ¬ sep <:+: l' := fun hi => hl (contains_cons_of hi)
    have key : jsIndexOf sep (c :: (l' ++ a :: r)) =
        ((jsIndexOf sep r).map (· + (l'.length + 1))).map (· + 1) := by
      simp [jsIndexOf, hp, ih hl']
    rw [List.cons_append, key]
    cases jsIndexOf sep r with
    | none => rfl
    | some n => rfl

/-! ### Behaviour of `jsSplit` -/

theorem jsSplitNe_ne_nil (sep l : Str) : jsSplitNe sep l ≠ [] := by
  cases l with
  | nil => simp [jsSplitNe]
  | cons c rest =>
    rw [jsSplitNe]
    split
    · simp
    · cases h : jsSplitNe sep rest <;> simp

theorem jsSplitNe_eq_single {sep l : Str} (h : ¬ sep <:+: l) : jsSplitNe sep l = [l] := by
  induction l with
  | nil => simp [jsSplitNe]
  | cons c rest ih =>
    have hcond : ¬ (sep ≠ [] ∧ sep <+: (c :: rest)) := by
      rintro ⟨-, hp⟩
      exact h (starts_contains hp)
    have hrest : ¬ sep <:+: rest := fun hi => h (contains_cons_of hi)
    rw [jsSplitNe, if_neg hcond, ih hrest]

theorem jsSplitNe_append_self {sep l : Str} (hne : sep ≠ []) :
    jsSplitNe sep (sep ++ l) = [] :: jsSplitNe sep l := by
  cases sep with
  | nil => exact absurd rfl hne
  | cons c s' =>
    have hp : (c :: s') <+: (c :: (s' ++ l)) := ⟨l, by simp⟩
    rw [List.cons_append, jsSplitNe, if_pos ⟨hne, hp⟩]
    congr 2
    simp [drop_append_self]

theorem jsSplit_eq_single {sep l : Str} (hne : sep ≠ []) (h : ¬ sep <:+: l) :
    jsSplit sep l = [l] := by
  simp [jsSplit, hne, jsSplitNe_eq_single h]

theorem jsSplit_append_self {sep l : Str} (hne : sep ≠ []) :
    jsSplit sep (sep ++ l) = [] :: jsSplitNe sep l := by
  simp [jsSplit, hne, jsSplitNe_append_self hne]

/-! ### Claim C3 -/

/-- Claim C3, amended: `handleSubmit` invokes the send callback once with the
buffer snapshot (attachments included exactly when `allowImageAttachment` is
`"yes"`), empties the buffer, resets the selection to `{0,0}` and collapses
the editor — but it leaves the Attachment Store untouched, so the store is
not empty after submit unless it already was. -/
theorem c3_submit_reset_amended (allowImageAttachment : Str) (s : ComposerState) :
    (handleSubmit allowImageAttachment s).2 =
      (s.draftText, if allowImageAttachment = str "yes" then s.fileDataRef else [])
    ∧ (handleSubmit allowImageAttachment s).1.draftText = []
    ∧ (handleSubmit allowImageAttachment s).1.selectionStart = 0
    ∧ (handleSubmit allowImageAttachment s).1.selectionEnd = 0
    ∧ (handleSubmit allowImageAttachment s).1.isExpanded = false
    ∧ (handleSubmit allowImageAttachment s).1.fileDataRef = s.fileDataRef :=
  ⟨rfl, rfl, rfl, rfl, rfl, rfl⟩

/-- Claim C3, counterexample: submitting a composer holding one attachment
leaves the Attachment Store non-empty, contradicting "afterwards … the
Attachment Store is empty". -/
theorem c3_submit_counterexample :
    (handleSubmit (str "yes") sampleWithAttachment).1.fileDataRef ≠ [] := by
  decide

/-! ### Claim C4 -/

/-- Claim C4, amended: while a send is outstanding, `handleCancel` signals
the streaming collaborator (`ChatService.cancelStream()`) and clears the
loading flag, and changes nothing else — in particular it leaves
CompositionMode exactly as it was instead of forcing it back to collapsed. -/
theorem c4_cancel_amended (s : ComposerState) (_h : s.loading = true) :
    (handleCancel s).2 = true
    ∧ (handleCancel s).1.loading = false
    ∧ (handleCancel s).1.isExpanded = s.isExpanded
    ∧ (handleCancel s).1.draftText = s.draftText
    ∧ (handleCancel s).1.fileDataRef = s.fileDataRef
    ∧ (handleCancel s).1.selectionStart = s.selectionStart
    ∧ (handleCancel s).1.selectionEnd = s.selectionEnd :=
  ⟨rfl, rfl, rfl, rfl, rfl, rfl, rfl⟩

/-- Witness for `c4_cancel_amended` at a concrete loading, expanded state. -/
theorem c4_cancel_amended_witness :
    sampleLoadedExpanded.loading = true
    ∧ ((handleCancel sampleLoadedExpanded).2 = true
       ∧ (handleCancel sampleLoadedExpanded).1.loading = false
       ∧ (handleCancel sampleLoadedExpanded).1.isExpanded = sampleLoadedExpanded.isExpanded
       ∧ (handleCancel sampleLoadedExpanded).1.draftText = sampleLoadedExpanded.draftText
       ∧ (handleCancel sampleLoadedExpanded).1.fileDataRef = sampleLoadedExpanded.fileDataRef
       ∧ (handleCancel sampleLoadedExpanded).1.selectionStart = sampleLoadedExpanded.selectionStart
       ∧ (handleCancel sampleLoadedExpanded).1.selectionEnd = sampleLoadedExpanded.selectionEnd) :=
  ⟨by decide, c4_cancel_amended sampleLoadedExpanded (by decide)⟩

/-- Claim C4, counterexample: cancelling while a send is outstanding in the
expanded editor leaves CompositionMode expanded, contradicting "leaves
CompositionMode in the collapsed state afterwards". -/
theorem c4_cancel_counterexample :
    sampleLoadedExpanded.loading = true
    ∧ (handleCancel sampleLoadedExpanded).1.isExpanded ≠ false :=
  ⟨by decide, by decide⟩

/-! ### Claim C7 -/

/-- Claim C7: for every buffer and valid selection `{start, end}` with
`start ≤ end ≤ length`, `insertTextAtCursorPosition` replaces the selected
range with the inserted text and collapses the selection to the point
`start + len(text)` right after it. -/
theorem c7_insert_at_cursor (s : ComposerState) (textToInsert : Str)
    (_h1 : s.selectionStart ≤ s.selectionEnd) (_h2 : s.selectionEnd ≤ s.draftText.length) :
    (insertTextAtCursorPosition s textToInsert).draftText =
      s.draftText.take s.selectionStart ++ textToInsert ++ s.draftText.drop s.selectionEnd
    ∧ (insertTextAtCursorPosition s textToInsert).selectionStart =
      s.selectionStart + textToInsert.length
    ∧ (insertTextAtCursorPosition s textToInsert).selectionEnd =
      s.selectionStart + textToInsert.length :=
  ⟨rfl, rfl, rfl⟩

/-- Witness for `c7_insert_at_cursor`: inserting `"XY"` into `"abcd"` over
the selection `{1, 3}` gives `"aXYd"` with the selection collapsed to 3. -/
theorem c7_insert_at_cursor_witness :
    sampleIdle.selectionStart ≤ sampleIdle.selectionEnd
    ∧ sampleIdle.selectionEnd ≤ sampleIdle.draftText.length
    ∧ (insertTextAtCursorPosition sampleIdle (str "XY")).draftText =
        sampleIdle.draftText.take sampleIdle.selectionStart ++ str "XY" ++
          sampleIdle.draftText.drop sampleIdle.selectionEnd
    ∧ (insertTextAtCursorPosition sampleIdle (str "XY")).draftText = str "aXYd"
    ∧ (insertTextAtCursorPosition sampleIdle (str "XY")).selectionStart = 3
    ∧ (insertTextAtCursorPosition sampleIdle (str "XY")).selectionEnd = 3 := by
  have h := c7_insert_at_cursor sampleIdle (str "XY") (by decide) (by decide)
  exact ⟨by decide, by decide, h.1, by decide, h.2.1.trans (by decide), h.2.2.trans (by decide)⟩

/-! ### Claim C8 -/

/-- Claim C8: a plain Enter keystroke while not loading triggers exactly one
`callApp` invocation with the current buffer; Shift+Enter triggers none and
leaves the native default (which inserts a literal newline) unprevented; an
Enter keystroke while loading triggers none. -/
theorem c8_enter_policy (allowImageAttachment : Str) (s : ComposerState)
    (e : KeyboardEventModel) (hk : e.key = str "Enter") :
    (e.shiftKey = false → s.loading = false →
      (checkForSpecialKey allowImageAttachment s e).callAppCalls =
        [(s.draftText, if allowImageAttachment = str "yes" then s.fileDataRef else [])]
      ∧ (checkForSpecialKey allowImageAttachment s e).defaultPrevented = true)
    ∧ (e.shiftKey = true →
      (checkForSpecialKey allowImageAttachment s e).callAppCalls = []
      ∧ (checkForSpecialKey allowImageAttachment s e).defaultPrevented = false
      ∧ (nativeEnterDefault s).draftText =
          s.draftText.take s.selectionStart ++ '\n' :: s.draftText.drop s.selectionEnd)
    ∧ (s.loading = true →
      (checkForSpecialKey allowImageAttachment s e).callAppCalls = []) := by
  refine ⟨fun hs hl => ?_, fun hs => ?_, fun hl => ?_⟩
  · simp [checkForSpecialKey, hk, hs, hl]
  · simp [checkForSpecialKey, hk, hs, nativeEnterDefault]
  · cases hs : e.shiftKey <;> simp [checkForSpecialKey, hk, hs, hl]

/-- Witness for `c8_enter_policy`: the three branches at concrete states —
plain Enter on an idle composer submits once and prevents the default,
Shift+Enter does not submit, Enter while loading does not submit. -/
theorem c8_enter_policy_witness :
    samplePlainEnter.key = str "Enter"
    ∧ ((checkForSpecialKey (str "yes") sampleWithAttachment samplePlainEnter).callAppCalls =
        [(sampleWithAttachment.draftText,
          if str "yes" = str "yes" then sampleWithAttachment.fileDataRef else [])]
       ∧ (checkForSpecialKey (str "yes") sampleWithAttachment samplePlainEnter).defaultPrevented =
          true)
    ∧ ((checkForSpecialKey (str "yes") sampleWithAttachment sampleShiftEnter).callAppCalls = []
       ∧ (checkForSpecialKey (str "yes") sampleWithAttachment sampleShiftEnter).defaultPrevented =
          false
       ∧ (nativeEnterDefault sampleWithAttachment).draftText =
          sampleWithAttachment.draftText.take sampleWithAttachment.selectionStart ++
            '\n' :: sampleWithAttachment.draftText.drop sampleWithAttachment.selectionEnd)
    ∧ (checkForSpecialKey (str "yes") sampleLoadedExpanded samplePlainEnter).callAppCalls = [] := by
  refine ⟨by decide, ?_, ?_, ?_⟩
  · exact (c8_enter_policy (str "yes") sampleWithAttachment samplePlainEnter (by decide)).1
      (by decide) (by decide)
  · exact (c8_enter_policy (str "yes") sampleWithAttachment sampleShiftEnter (by decide)).2.1
      (by decide)
  · exact (c8_enter_policy (str "yes") sampleLoadedExpanded samplePlainEnter (by decide)).2.2
      (by decide)

/-! ### Claim C5 -/

/-- Claim C5: for a pasted payload containing neither marker, if its newline
count reaches `maxRows` or its length exceeds `80 * maxRows` the native
paste is suppressed and the payload, wrapped as
`BEGIN\n<payload>\nEND\n`, is inserted at the cursor; otherwise the native
paste proceeds with no wrapping. -/
theorem c5_oversized_paste (marks : SnippetMarkers) (maxRows : Nat) (s : ComposerState)
    (pastedText : Str)
    (hb : ¬ marks.beginMarker <:+: pastedText) (he : ¬ marks.endMarker <:+: pastedText) :
    ((maxRows ≤ pastedText.count '\n' ∨ 80 * maxRows < pastedText.length) →
      handlePasteTextEffect marks maxRows s pastedText =
        (insertTextAtCursorPosition s
          (marks.beginMarker ++ '\n' :: pastedText ++ '\n' :: marks.endMarker ++ ['\n']),
         true))
    ∧ ((pastedText.count '\n' < maxRows ∧ pastedText.length ≤ 80 * maxRows) →
      handlePasteTextEffect marks maxRows s pastedText = (s, false)) := by
  constructor
  · intro h
    simp [handlePasteTextEffect, handlePasteText, hb, he, h, wrapSnippet]
  · intro h
    have hcond : ¬ (maxRows ≤ pastedText.count '\n' ∨ 80 * maxRows < pastedText.length) := by
      omega
    simp [handlePasteTextEffect, handlePasteText, hb, he, hcond]

/-- Witness for `c5_oversized_paste`: with markers `"B"`/`"E"` and
`maxRows = 1`, pasting `"\n"` (one newline) is wrapped as `"B\n\n\nE\n"`
and inserted, while pasting `"a"` is left to the native paste. -/
theorem c5_oversized_paste_witness :
    (¬ marksBE.beginMarker <:+: str "\n")
    ∧ (¬ marksBE.endMarker <:+: str "\n")
    ∧ handlePasteTextEffect marksBE 1 sampleEmpty (str "\n") =
        (insertTextAtCursorPosition sampleEmpty (str "B\n\n\nE\n"), true)
    ∧ handlePasteTextEffect marksBE 1 sampleEmpty (str "a") = (sampleEmpty, false) := by
  have h1 := (c5_oversized_paste marksBE 1 sampleEmpty (str "\n") (by decide) (by decide)).1
    (Or.inl (by decide))
  have h2 := (c5_oversized_paste marksBE 1 sampleEmpty (str "a") (by decide) (by decide)).2
    ⟨by decide, by decide⟩
  exact ⟨by decide, by decide, h1.trans (by decide), h2⟩

/-! ### Claim C6 -/

/-- Claim C6: a pasted payload that already contains the begin marker or the
end marker verbatim is classified as a plain native paste — the handler
takes no action, inserts nothing, and so never adds nested or duplicated
markers itself. -/
theorem c6_marker_paste_passthrough (marks : SnippetMarkers) (maxRows : Nat)
    (s : ComposerState) (pastedText : Str)
    (h : (marks.beginMarker <:+: pastedText) ∨ (marks.endMarker <:+: pastedText)) :
    handlePasteText marks maxRows pastedText = .nativePaste
    ∧ handlePasteTextEffect marks maxRows s pastedText = (s, false) := by
  constructor
  · simp [handlePasteText, h]
  · simp [handlePasteTextEffect, handlePasteText, h]

/-- Witness for `c6_marker_paste_passthrough`: pasting the begin marker
itself is passed through untouched. -/
theorem c6_marker_paste_passthrough_witness :
    ((marksBE.beginMarker <:+: str "B") ∨ (marksBE.endMarker <:+: str "B"))
    ∧ handlePasteText marksBE 1 (str "B") = .nativePaste
    ∧ handlePasteTextEffect marksBE 1 sampleEmpty (str "B") = (sampleEmpty, false) := by
  have h := c6_marker_paste_passthrough marksBE 1 sampleEmpty (str "B") (Or.inl (by decide))
  exact ⟨Or.inl (by decide), h.1, h.2⟩

/-! ### Claim C1 -/

theorem pasteImageStep_length {allowImageAttachment : Str}
    (hallow : allowImageAttachment ≠ str "no") (acc : List FileDataRef)
    (item : ClipboardItemModel) :
    (pasteImageStep allowImageAttachment acc item).length =
      acc.length + (if pastedImageCounted item then 1 else 0) := by
  by_cases h1 : (str "image") <+: item.type
  · cases hf : item.asFile with
    | none => simp [pasteImageStep, pastedImageCounted, h1, hf, hallow]
    | some f => simp [pasteImageStep, pastedImageCounted, h1, hf, hallow]
  · simp [pasteImageStep, pastedImageCounted, h1]

theorem handlePasteImageItems_length {allowImageAttachment : Str}
    (hallow : allowImageAttachment ≠ str "no") (items : List ClipboardItemModel)
    (acc : List FileDataRef) :
    (handlePasteImageItems allowImageAttachment acc items).length =
      acc.length + items.countP pastedImageCounted := by
  induction items generalizing acc with
  | nil => simp [handlePasteImageItems]
  | cons it its ih =>
    have hfold : handlePasteImageItems allowImageAttachment acc (it :: its) =
        handlePasteImageItems allowImageAttachment
          (pasteImageStep allowImageAttachment acc it) its := rfl
    rw [hfold, ih, pasteImageStep_length hallow, List.countP_cons]
    omega

theorem attachmentOnChangeStep_drop {maxImages : Nat} {marks : SnippetMarkers}
    {fileDataRef : List FileDataRef} (hge : maxImages ≤ fileDataRef.length)
    (acc : List FileDataRef × List Str) (file : PickedFileModel) :
    (attachmentOnChangeStep maxImages marks fileDataRef acc file).1 = acc.1 := by
  by_cases h1 : (str "image/") <+: file.type
  · simp [attachmentOnChangeStep, h1, hge]
  · by_cases h2 : (str "text/") <+: file.type <;>
      simp [attachmentOnChangeStep, h1, h2]

theorem handleAttachmentOnChange_drop {maxImages : Nat} {marks : SnippetMarkers}
    {fileDataRef : List FileDataRef} (hge : maxImages ≤ fileDataRef.length)
    (files : List PickedFileModel) :
    ∀ acc : List FileDataRef × List Str,
      (files.foldl (attachmentOnChangeStep maxImages marks fileDataRef) acc).1 = acc.1 := by
  induction files with
  | nil => intro acc; rfl
  | cons f fs ih =>
    intro acc
    rw [List.foldl_cons, ih, attachmentOnChangeStep_drop hge]

theorem attachmentOnChangeStep_length {maxImages : Nat} {marks : SnippetMarkers}
    {fileDataRef : List FileDataRef} (hlt : fileDataRef.length < maxImages)
    (acc : List FileDataRef × List Str) (file : PickedFileModel) :
    (attachmentOnChangeStep maxImages marks fileDataRef acc file).1.length =
      acc.1.length + (if pickedImageCounted file then 1 else 0) := by
  by_cases h1 : (str "image/") <+: file.type
  · simp [attachmentOnChangeStep, pickedImageCounted, h1, Nat.not_le.mpr hlt]
  · by_cases h2 : (str "text/") <+: file.type <;>
      simp [attachmentOnChangeStep, pickedImageCounted, h1, h2]

theorem handleAttachmentOnChange_length {maxImages : Nat} {marks : SnippetMarkers}
    {fileDataRef : List FileDataRef} (hlt : fileDataRef.length < maxImages)
    (files : List PickedFileModel) :
    ∀ acc : List FileDataRef × List Str,
      (files.foldl (attachmentOnChangeStep maxImages marks fileDataRef) acc).1.length =
        acc.1.length + files.countP pickedImageCounted := by
  induction files with
  | nil => intro acc; simp
  | cons f fs ih =>
    intro acc
    rw [List.foldl_cons, ih, attachmentOnChangeStep_length hlt, List.countP_cons]
    omega

/-- Claim C1, amended: the image cap is not an invariant of the store.  The
paste path appends every image item unconditionally (no cap check), and the
picker path checks only the store size captured when the dialog's `onchange`
fired: a batch arriving on a full store is dropped wholesale, but a batch
arriving while the store is below the cap is appended wholesale, so either
path can leave more than `maximumImageAttachmentsPerMessage` images stored. -/
theorem c1_attachment_cap_behavior (allowImageAttachment : Str)
    (items : List ClipboardItemModel) (fileDataRef : List FileDataRef) (maxImages : Nat)
    (marks : SnippetMarkers) (files : List PickedFileModel)
    (hallow : allowImageAttachment ≠ str "no") :
    ((handlePasteImageItems allowImageAttachment fileDataRef items).length =
      fileDataRef.length + items.countP pastedImageCounted)
    ∧ (maxImages ≤ fileDataRef.length →
      (handleAttachmentOnChange maxImages marks fileDataRef files).1 = fileDataRef)
    ∧ (fileDataRef.length < maxImages →
      (handleAttachmentOnChange maxImages marks fileDataRef files).1.length =
        fileDataRef.length + files.countP pickedImageCounted) := by
  refine ⟨handlePasteImageItems_length hallow items fileDataRef, fun hge => ?_, fun hlt => ?_⟩
  · exact handleAttachmentOnChange_drop hge files (fileDataRef, [])
  · exact handleAttachmentOnChange_length hlt files (fileDataRef, [])

/-- Witness for `c1_attachment_cap_behavior`: pasting two images into an
empty store stores both; with a cap of 1, a picked batch on a full store is
dropped, and a picked batch of two on an empty store stores both. -/
theorem c1_attachment_cap_behavior_witness :
    (str "yes" ≠ str "no")
    ∧ (handlePasteImageItems (str "yes") [] [sampleImageItem, sampleImageItem]).length = 2
    ∧ (handleAttachmentOnChange 1 marksBE [sampleAttachment] [samplePickedImage]).1 =
        [sampleAttachment]
    ∧ (handleAttachmentOnChange 1 marksBE [] [samplePickedImage, samplePickedImage]).1.length =
        2 := by
  have h1 := (c1_attachment_cap_behavior (str "yes") [sampleImageItem, sampleImageItem] [] 1
    marksBE [] (by decide)).1
  have h2 := (c1_attachment_cap_behavior (str "yes") [] [sampleAttachment] 1 marksBE
    [samplePickedImage] (by decide)).2.1 (by decide)
  have h3 := (c1_attachment_cap_behavior (str "yes") [] [] 1 marksBE
    [samplePickedImage, samplePickedImage] (by decide)).2.2 (by decide)
  exact ⟨by decide, h1.trans (by decide), h2, h3.trans (by decide)⟩

/-- Claim C1, counterexample: with `maximumImageAttachmentsPerMessage = 1`
and `k = 1`, pasting two images stores two attachments and picking two
images stores two attachments — not exactly one, so the excess is not
dropped. -/
theorem c1_cap_counterexample :
    (handlePasteImageItems (str "yes") [] [sampleImageItem, sampleImageItem]).length = 2
    ∧ (handleAttachmentOnChange 1 marksBE [] [samplePickedImage, samplePickedImage]).1.length = 2
    ∧ (2 : Nat) ≠ 1 := by
  refine ⟨by decide, by decide, by decide⟩

/-! ### Claim C9 -/

theorem processSection_ne_nil (endMarker : Str) (index : Nat) (piece : Str) :
    processSection endMarker index piece ≠ [] := by
  unfold processSection
  split
  · simp
  · split <;> simp

/-- Claim C9: the segmentation parser is total and lenient — on any input it
produces at least one section (given a non-empty begin marker, as every
marker configuration has), and any piece that contains no end marker
(in particular an unterminated piece following a begin marker) is emitted
whole as prose instead of failing. -/
theorem c9_parser_total_lenient (marks : SnippetMarkers) (t : Str) (index : Nat) (piece : Str) :
    (marks.beginMarker ≠ [] → 1 ≤ (processText marks t).length)
    ∧ (¬ (marks.endMarker <:+: piece) →
        processSection marks.endMarker index piece = [renderMarkdownSection piece]) := by
  constructor
  · intro hb
    obtain ⟨p, ps, hps⟩ :=
      List.exists_cons_of_ne_nil (jsSplitNe_ne_nil marks.beginMarker t)
    have hsplit : jsSplit marks.beginMarker t = p :: ps := by
      simp [jsSplit, hb, hps]
    unfold processText
    rw [hsplit]
    have hpos : 0 < (processSection marks.endMarker 0 p).length :=
      List.length_pos.mpr (processSection_ne_nil marks.endMarker 0 p)
    have : processTextGo marks.endMarker 0 (p :: ps) =
        processSection marks.endMarker 0 p ++ processTextGo marks.endMarker 1 ps := rfl
    rw [this, List.length_append]
    omega
  · intro he
    by_cases hi : index = 0
    · simp [processSection, hi, he]
    · have hnone := jsIndexOf_eq_none_of_not_contains he
      simp [processSection, hi, hnone]

/-- Witness for `c9_parser_total_lenient`: on `"Bxy"` with markers
`"B"`/`"E"` the parser produces a non-empty section list, and the
unterminated piece `"xy"` after the begin marker is emitted as prose. -/
theorem c9_parser_total_lenient_witness :
    (marksBE.beginMarker ≠ [])
    ∧ 1 ≤ (processText marksBE (str "Bxy")).length
    ∧ (¬ (marksBE.endMarker <:+: str "xy"))
    ∧ processSection marksBE.endMarker 1 (str "xy") = [renderMarkdownSection (str "xy")] := by
  have h := c9_parser_total_lenient marksBE (str "Bxy") 1 (str "xy")
  exact ⟨by decide, h.1 (by decide), by decide, h.2 (by decide)⟩

/-! ### Claim C10 -/

theorem processText_eq_of_split {marks : SnippetMarkers} {t p0 : Str} {ps : List Str}
    (hsplit : jsSplit marks.beginMarker t = p0 :: ps) :
    processText marks t =
      processSection marks.endMarker 0 p0 ++ processTextGo marks.endMarker 1 ps := by
  unfold processText
  rw [hsplit]
  rfl

/-- Claim C10: when the first piece of the split (the text before the first
begin marker, or the whole input when there is none) contains the end
marker — at first index `i` — the parser emits the portion of that piece up
to the end marker as a snippet, not as prose, and the non-empty remainder
after the end marker as prose. -/
theorem c10_stray_end_marker (marks : SnippetMarkers) (t p0 : Str) (ps : List Str) (i : Nat)
    (hsplit : jsSplit marks.beginMarker t = p0 :: ps)
    (hidx : jsIndexOf marks.endMarker p0 = some i) :
    processText marks t =
      RenderedSection.foldableSection (p0.take i) ::
        ((if p0.drop (i + marks.endMarker.length) = [] then []
          else [renderMarkdownSection (p0.drop (i + marks.endMarker.length))])
         ++ processTextGo marks.endMarker 1 ps) := by
  rw [processText_eq_of_split hsplit]
  have hcont : marks.endMarker <:+: p0 := jsIndexOf_some_contains hidx
  have hsec : processSection marks.endMarker 0 p0 =
      RenderedSection.foldableSection (p0.take i) ::
        (if p0.drop (i + marks.endMarker.length) = [] then []
         else [renderMarkdownSection (p0.drop (i + marks.endMarker.length))]) := by
    simp [processSection, hcont, hidx]
  rw [hsec]
  simp

/-- Witness for `c10_stray_end_marker`: the input `"xEy"` has no begin
marker but contains the end marker `"E"` at index 1; it parses as the
snippet `"x"` followed by the prose `"y"`. -/
theorem c10_stray_end_marker_witness :
    jsSplit marksBE.beginMarker (str "xEy") = [str "xEy"]
    ∧ jsIndexOf marksBE.endMarker (str "xEy") = some 1
    ∧ processText marksBE (str "xEy") =
        [RenderedSection.foldableSection (str "x"),
         RenderedSection.markdownSection (str "y")] := by
  have hsplit : jsSplit marksBE.beginMarker (str "xEy") = [str "xEy"] :=
    jsSplit_eq_single (by decide) (by decide)
  have hidx : jsIndexOf marksBE.endMarker (str "xEy") = some 1 := by decide
  have h := c10_stray_end_marker marksBE (str "xEy") (str "xEy") [] 1 hsplit hidx
  exact ⟨hsplit, hidx, h.trans (by decide)⟩

/-! ### Claim C2 -/

theorem processTextGo_wrap (B E T : Str)
    (hb : B ≠ []) (he : E ≠ [])
    (hbn : '\n' ∉ B) (hen : '\n' ∉ E)
    (hTb : ¬ B <:+: T) (hTe : ¬ E <:+: T)
    (hbe : ¬ B <:+: E) :
    processTextGo E 0 (jsSplit B (B ++ ('\n' :: (T ++ '\n' :: (E ++ ['\n']))))) =
      [RenderedSection.emptyFragment,
       RenderedSection.foldableSection ('\n' :: T ++ ['\n']),
       RenderedSection.markdownSection ['\n']] := by
  have hnotB : ¬ B <:+: ('\n' :: (T ++ '\n' :: (E ++ ['\n']))) := by
    intro h
    rcases (contains_cons_split hbn).mp h with h0 | h1
    · exact hb h0
    · rcases (contains_append_split hbn).mp h1 with h2 | h3
      · exact hTb h2
      · rcases (contains_append_split hbn).mp h3 with h4 | h5
        · exact hbe h4
        · exact hb ((contains_nil_iff B).mp h5)
  have hsplit : jsSplit B (B ++ ('\n' :: (T ++ '\n' :: (E ++ ['\n'])))) =
      [[], '\n' :: (T ++ '\n' :: (E ++ ['\n']))] := by
    rw [jsSplit_append_self hb, jsSplitNe_eq_single hnotB]
  have hsec0 : processSection E 0 [] = [RenderedSection.emptyFragment] := by
    have hc : ¬ (E <:+: ([] : Str)) := fun hc => he ((contains_nil_iff E).mp hc)
    simp [processSection, hc, renderMarkdownSection]
  have hidx : jsIndexOf E ('\n' :: (T ++ '\n' :: (E ++ ['\n']))) = some (T.length + 2) := by
    rw [jsIndexOf_cons_not_mem he hen,
        jsIndexOf_append_shift he hen hTe,
        jsIndexOf_starts (⟨['\n'], rfl⟩ : E <+: (E ++ ['\n']))]
    simp only [Option.map_some', Option.some.injEq]
    omega
  have htake : ('\n' :: (T ++ '\n' :: (E ++ ['\n']))).take (T.length + 2) =
      '\n' :: T ++ ['\n'] := by
    rw [show T.length + 2 = (T.length + 1) + 1 from rfl, List.take_succ_cons]
    congr 1
    rw [take_append_plus]
    rfl
  have hdrop : ('\n' :: (T ++ '\n' :: (E ++ ['\n']))).drop (T.length + 2 + E.length) =
      ['\n'] := by
    have harith : T.length + 2 + E.length = (T.length + (1 + E.length)) + 1 := by omega
    rw [harith, List.drop_succ_cons, drop_append_plus]
    have h1 : 1 + E.length = E.length + 1 := by omega
    rw [h1, List.drop_succ_cons]
    exact drop_append_self E ['\n']
  have hsec1 : processSection E 1 ('\n' :: (T ++ '\n' :: (E ++ ['\n']))) =
      [RenderedSection.foldableSection ('\n' :: T ++ ['\n']),
       RenderedSection.markdownSection ['\n']] := by
    simp [processSection, hidx, htake, hdrop, renderMarkdownSection]
  rw [hsplit]
  have hgo : processTextGo E 0 [[], '\n' :: (T ++ '\n' :: (E ++ ['\n']))] =
      processSection E 0 [] ++
        (processSection E 1 ('\n' :: (T ++ '\n' :: (E ++ ['\n']))) ++ []) := rfl
  rw [hgo, hsec0, hsec1]
  rfl

/-- Claim C2, amended: wrapping a text `T` that contains neither marker via
the oversized-paste rule and parsing the result yields exactly one snippet
segment, but its content is `"\n" ++ T ++ "\n"` — the wrapper's two
newlines stay inside the snippet rather than being consumed — preceded by
an empty fragment (the empty prose before the begin marker) and followed by
the prose `"\n"` (the text after the end marker); no characters are lost or
duplicated.  (Marker sanity: both markers non-empty, newline-free, and the
begin marker not occurring inside `T` or the end marker.) -/
theorem c2_roundtrip_amended (marks : SnippetMarkers) (T : Str)
    (hb : marks.beginMarker ≠ []) (he : marks.endMarker ≠ [])
    (hbn : '\n' ∉ marks.beginMarker) (hen : '\n' ∉ marks.endMarker)
    (hTb : ¬ marks.beginMarker <:+: T) (hTe : ¬ marks.endMarker <:+: T)
    (hbe : ¬ marks.beginMarker <:+: marks.endMarker) :
    processText marks (wrapSnippet marks T) =
      [RenderedSection.emptyFragment,
       RenderedSection.foldableSection ('\n' :: T ++ ['\n']),
       RenderedSection.markdownSection ['\n']] := by
  have harr : wrapSnippet marks T =
      marks.beginMarker ++ ('\n' :: (T ++ '\n' :: (marks.endMarker ++ ['\n']))) := by
    simp [wrapSnippet]
  unfold processText
  rw [harr]
  exact processTextGo_wrap marks.beginMarker marks.endMarker T hb he hbn hen hTb hTe hbe

/-- Witness for `c2_roundtrip_amended` with markers `"B"`/`"E"` and
`T = "x"`. -/
theorem c2_roundtrip_amended_witness :
    (marksBE.beginMarker ≠ [] ∧ marksBE.endMarker ≠ []
     ∧ '\n' ∉ marksBE.beginMarker ∧ '\n' ∉ marksBE.endMarker
     ∧ ¬ marksBE.beginMarker <:+: str "x" ∧ ¬ marksBE.endMarker <:+: str "x"
     ∧ ¬ marksBE.beginMarker <:+: marksBE.endMarker)
    ∧ processText marksBE (wrapSnippet marksBE (str "x")) =
        [RenderedSection.emptyFragment,
         RenderedSection.foldableSection ('\n' :: str "x" ++ ['\n']),
         RenderedSection.markdownSection ['\n']] := by
  refine ⟨⟨by decide, by decide, by decide, by decide, by decide, by decide, by decide⟩, ?_⟩
  exact c2_roundtrip_amended marksBE (str "x") (by decide) (by decide) (by decide) (by decide)
    (by decide) (by decide) (by decide)

/-- Claim C2, counterexample: for `T = "x"` (no markers in `T`), parsing the
wrapped paste yields the single snippet content `"\nx\n"`, which is neither
`T` nor `T ++ "\n"` — the trailing newline is not consumed and a leading
newline is added, refuting "content equals T (modulo the single trailing
newline consumed by the wrapping format)". -/
theorem c2_roundtrip_counterexample :
    processText marksBE (wrapSnippet marksBE (str "x")) =
      [RenderedSection.emptyFragment,
       RenderedSection.foldableSection (str "\nx\n"),
       RenderedSection.markdownSection (str "\n")]
    ∧ str "\nx\n" ≠ str "x"
    ∧ str "\nx\n" ≠ str "x\n" := by
  have h := processTextGo_wrap (str "B") (str "E") (str "x") (by decide) (by decide)
    (by decide) (by decide) (by decide) (by decide) (by decide)
  exact ⟨h.trans (by decide), by decide, by decide⟩

end GotChat
